import Mathlib

/-!
Verification of the mtcvctm markdown-to-credential-metadata pipeline.

This file shallowly embeds the parts of the Go sources relevant to the
frozen claims: the claim-line and locale-line mini-grammars and flag
handling from `pkg/parser/parser.go`, the claims-list accumulation, the
front-matter extractor, the `ToVCTM` display/claims projection, the
format registry's `ParseFormats` from `pkg/formats/format.go`, the mddl
doctype derivation and generator, the w3c type derivation and generator,
the vctmfmt claims construction, and the multi-format `Parser.Generate`
orchestration from `pkg/parser/converter.go`.

Strings are modelled as Lean `String` (the inputs of interest are ASCII,
on which Go's byte-wise operations and Lean's character-wise operations
agree); Go maps are modelled as association lists with overwrite-insert.
-/

namespace Mtcvctm

/-! ### Go string primitives

Byte-level helpers mirroring the `strings` package operations used by the
source, implemented over `String.data` so that they are structurally
recursive and kernel-reducible. -/

/-- The character class of Go's `unicode.IsSpace` restricted to Latin-1,
used by `strings.TrimSpace`: space, \t, \n, \v, \f, \r, NEL, NBSP. -/
def goSpaceChar (c : Char) : Bool :=
  c = ' ' || c = '\t' || c = '\n' || c = '\r' ||
  c = Char.ofNat 11 || c = Char.ofNat 12 || c = Char.ofNat 0x85 || c = Char.ofNat 0xA0

/-- The character class of RE2's `\s`: exactly [\t\n\f\r ]. -/
def reSpaceChar (c : Char) : Bool :=
  c = ' ' || c = '\t' || c = '\n' || c = Char.ofNat 12 || c = '\r'

/-- Go `strings.TrimSpace`. -/
def goTrimSpace (s : String) : String :=
  String.mk (((s.data.dropWhile goSpaceChar).reverse.dropWhile goSpaceChar).reverse)

/-- Predicate form of Go `strings.HasPrefix`. -/
def strStartsWith (s pre : String) : Bool :=
  pre.data.isPrefixOf s.data

/-- Drop the first `n` characters. -/
def strDropN (s : String) (n : Nat) : String :=
  String.mk (s.data.drop n)

/-- Go `strings.TrimPrefix`. -/
def goTrimPrefix (s pre : String) : String :=
  if strStartsWith s pre then strDropN s pre.data.length else s

/-- Go `strings.HasSuffix`. -/
def strEndsWith (s suf : String) : Bool :=
  suf.data.reverse.isPrefixOf s.data.reverse

/-- Go `strings.TrimSuffix`. -/
def goTrimSuffix (s suf : String) : String :=
  if strEndsWith s suf then String.mk (s.data.take (s.data.length - suf.data.length)) else s

/-- Go `strings.ToLower` (ASCII range, as exercised by the sources). -/
def lowerStr (s : String) : String :=
  String.mk (s.data.map Char.toLower)

/-- Split a character list on a separator character (Go `strings.Split`
with a one-character separator). -/
def splitOnCharList (sep : Char) : List Char → List (List Char)
  | [] => [[]]
  | c :: rest =>
    if c = sep then [] :: splitOnCharList sep rest
    else
      match splitOnCharList sep rest with
      | h :: t => (c :: h) :: t
      | [] => [[c]]

/-- Go `strings.Split` with a one-character separator. -/
def goSplitChar (s : String) (sep : Char) : List String :=
  (splitOnCharList sep s.data).map String.mk

/-- Go `strings.Join`. -/
def joinSep (sep : String) : List String → String
  | [] => ""
  | [x] => x
  | x :: xs => x ++ sep ++ joinSep sep xs

/-- Whether `pat` occurs as a contiguous substring of `cs`
(Go `regexp.MatchString` with a literal pattern). -/
def hasSubList (cs pat : List Char) : Bool :=
  match cs with
  | [] => pat.isEmpty
  | _ :: rest => pat.isPrefixOf cs || hasSubList rest pat

/-- Index of the first occurrence of `pat` in `cs` (Go `bytes.Index`). -/
def findSubIdx (cs pat : List Char) : Option Nat :=
  match cs with
  | [] => if pat.isEmpty then some 0 else none
  | _ :: rest =>
    if pat.isPrefixOf cs then some 0
    else (findSubIdx rest pat).map (· + 1)

/-! ### The claim-line grammar (`pkg/parser/parser.go`)

`claimPattern` is the anchored RE2 regular expression

    ^`([^`]+)`\s*(?:"([^"]+)")?\s*(?:\(([^)]+)\))?:?\s*(.*)$

Because the trailing `(.*)` always succeeds, the preferred (leftmost,
greedy) match is computed without backtracking: each optional group is
taken exactly when its pattern matches at the current position, and each
`\s*` takes its maximal run.  The functions below implement that
preferred match directly. -/

/-- Match `(?:"([^"]+)")?` at the head of `cs`: an optional quoted group
with non-empty body.  Returns the body and the rest on success. -/
def matchQuote (cs : List Char) : Option (List Char × List Char) :=
  match cs with
  | '"' :: r =>
    let content := r.takeWhile (· ≠ '"')
    match r.dropWhile (· ≠ '"') with
    | '"' :: rest => if content.isEmpty then none else some (content, rest)
    | _ => none
  | _ => none

/-- Match `(?:\(([^)]+)\))?` at the head of `cs`. -/
def matchParen (cs : List Char) : Option (List Char × List Char) :=
  match cs with
  | '(' :: r =>
    let content := r.takeWhile (· ≠ ')')
    match r.dropWhile (· ≠ ')') with
    | ')' :: rest => if content.isEmpty then none else some (content, rest)
    | _ => none
  | _ => none

/-- The submatches of `claimPattern`: claim name, optional display name,
optional type, and the remaining description text. -/
def matchClaimPattern (s : String) : Option (String × String × String × String) :=
  match s.data with
  | '`' :: r =>
    let name := r.takeWhile (· ≠ '`')
    match r.dropWhile (· ≠ '`') with
    | '`' :: r2 =>
      if name.isEmpty then none
      else
        let r3 := r2.dropWhile reSpaceChar
        let (disp, r4) := match matchQuote r3 with
          | some (d, rest) => (d, rest)
          | none => ([], r3)
        let r5 := r4.dropWhile reSpaceChar
        let (ty, r6) := match matchParen r5 with
          | some (t, rest) => (t, rest)
          | none => ([], r5)
        let r7 := match r6 with
          | ':' :: rr => rr
          | _ => r6
        let r8 := r7.dropWhile reSpaceChar
        some (String.mk name, String.mk disp, String.mk ty, String.mk r8)
    | _ => none
  | _ => none

/-- Localized display information for a claim (parser `ClaimLocalization`). -/
structure ClaimLocalization where
  label : String
  description : String
  deriving Repr, DecidableEq

/-- A parsed claim definition (parser `ClaimDef`). -/
structure ClaimDef where
  name : String
  type : String
  description : String
  mandatory : Bool
  sd : String
  svgId : String
  displayName : String
  localizations : List (String × ClaimLocalization)
  deriving Repr, DecidableEq

/-- Processing of one comma-separated flag from a bracketed flag group:
`mandatory` and `sd=` are compared on the lowercased flag, while the
`svg_id=` value is taken by `strings.TrimPrefix` from the original-case
flag text. -/
def applyFlag (cl : ClaimDef) (flag : String) : ClaimDef :=
  let f := goTrimSpace flag
  let fl := lowerStr f
  if fl = "mandatory" then { cl with mandatory := true }
  else if strStartsWith fl "sd=" then { cl with sd := strDropN fl 3 }
  else if strStartsWith fl "svg_id=" then { cl with svgId := goTrimPrefix f "svg_id=" }
  else cl

/-- Contents of the bracketed flag groups matched by `\[([^\]]+)\]`
(leftmost, non-overlapping), in order.  `fuel` bounds the recursion and is
instantiated with the list length. -/
def bracketGroupsAux : Nat → List Char → List (List Char)
  | 0, _ => []
  | _ + 1, [] => []
  | fuel + 1, '[' :: rest =>
    let gap := rest.takeWhile (· ≠ ']')
    if gap.length = rest.length then []
    else if gap.isEmpty then bracketGroupsAux fuel rest
    else gap :: bracketGroupsAux fuel ((rest.dropWhile (· ≠ ']')).drop 1)
  | fuel + 1, _ :: rest => bracketGroupsAux fuel rest

/-- All bracketed flag-group contents of a description. -/
def bracketGroups (cs : List Char) : List (List Char) :=
  bracketGroupsAux cs.length cs

/-- `bracketPattern.ReplaceAllString(desc, "")`: remove every matched
bracket group. -/
def removeBracketsAux : Nat → List Char → List Char
  | 0, cs => cs
  | _ + 1, [] => []
  | fuel + 1, '[' :: rest =>
    let gap := rest.takeWhile (· ≠ ']')
    if gap.length = rest.length then '[' :: rest
    else if gap.isEmpty then '[' :: removeBracketsAux fuel rest
    else removeBracketsAux fuel ((rest.dropWhile (· ≠ ']')).drop 1)
  | fuel + 1, c :: rest => c :: removeBracketsAux fuel rest

/-- Remove all bracketed flag groups. -/
def removeBrackets (cs : List Char) : List Char :=
  removeBracketsAux cs.length cs

/-- The legacy `(mandatory)` marker, as a character list. -/
def parenMandatory : List Char := ['(', 'm', 'a', 'n', 'd', 'a', 't', 'o', 'r', 'y', ')']

/-- `(?i)\(mandatory\)` replaced by the empty string: remove every
case-insensitive occurrence of `(mandatory)`. -/
def removeParenMandatoryAux : Nat → List Char → List Char
  | 0, cs => cs
  | _ + 1, [] => []
  | fuel + 1, c :: rest =>
    if ((c :: rest).take 11).map Char.toLower = parenMandatory then
      removeParenMandatoryAux fuel ((c :: rest).drop 11)
    else c :: removeParenMandatoryAux fuel rest

/-- Remove every case-insensitive `(mandatory)` occurrence. -/
def removeParenMandatory (cs : List Char) : List Char :=
  removeParenMandatoryAux cs.length cs

/-- `parseClaimFromListItem` from `pkg/parser/parser.go`: match the claim
grammar, default the type to `"string"`, process and strip bracketed flag
groups, handle the legacy parenthetical `(mandatory)` marker, and trim
the remaining description. -/
def parseClaimFromListItem (text : String) : Option ClaimDef :=
  match matchClaimPattern text with
  | none => none
  | some (name, disp, ty, desc) =>
    let cl0 : ClaimDef :=
      { name := name, displayName := disp
        type := if ty = "" then "string" else ty
        description := desc, mandatory := false, sd := "", svgId := ""
        localizations := [] }
    let flags := ((bracketGroups desc.data).map
      (fun g => goSplitChar (String.mk g) ',')).flatten
    let cl1 := flags.foldl applyFlag cl0
    let desc1 := removeBrackets desc.data
    let (cl2, desc2) :=
      if hasSubList (desc1.map Char.toLower) parenMandatory then
        ({ cl1 with mandatory := true }, removeParenMandatory desc1)
      else (cl1, desc1)
    some { cl2 with description := goTrimSpace (String.mk desc2) }

/-! ### The locale-override grammar

`localePattern` is the anchored RE2 regular expression

    ^([a-zA-Z]{2,3}(?:-[a-zA-Z]{2,4})?):\s*(?:"([^"]+)")?\s*(?:-\s*)?(.*)$

The preferred match tries the longer language-tag length first, and for
the optional region group tries the longer lengths first and its absence
last, each followed by the mandatory colon. -/

/-- ASCII letter test (`[a-zA-Z]`). -/
def isAsciiAlpha (c : Char) : Bool :=
  ('a' ≤ c && c ≤ 'z') || ('A' ≤ c && c ≤ 'Z')

/-- Match everything after the colon of a locale line: `\s*`, an optional
quoted label, `\s*`, an optional dash with trailing spaces, then the
description. -/
def matchLocaleTail (cs : List Char) : String × String :=
  let r1 := cs.dropWhile reSpaceChar
  let (label, r2) := match matchQuote r1 with
    | some (l, rest) => (l, rest)
    | none => ([], r1)
  let r3 := r2.dropWhile reSpaceChar
  let r4 := match r3 with
    | '-' :: rr => rr.dropWhile reSpaceChar
    | _ => r3
  (String.mk label, String.mk r4)

/-- Try the locale head with language length `k`, preferring a region
subtag of length 4, 3 then 2, then no region, each followed by `:`. -/
def matchLocaleWithLang (cs : List Char) (k : Nat) : Option (String × String × String) :=
  let lang := cs.take k
  if lang.length = k && lang.all isAsciiAlpha then
    let rest := cs.drop k
    let withRegion : Option (String × String × String) :=
      match rest with
      | '-' :: r2 =>
        let tryReg (m : Nat) : Option (String × String × String) :=
          let reg := r2.take m
          if reg.length = m && reg.all isAsciiAlpha then
            match r2.drop m with
            | ':' :: tail =>
              let (l, d) := matchLocaleTail tail
              some (String.mk (lang ++ '-' :: reg), l, d)
            | _ => none
          else none
        ((tryReg 4).orElse fun _ => (tryReg 3).orElse fun _ => tryReg 2)
      | _ => none
    withRegion.orElse fun _ =>
      match rest with
      | ':' :: tail =>
        let (l, d) := matchLocaleTail tail
        some (String.mk lang, l, d)
      | _ => none
  else none

/-- The submatches of `localePattern`: locale tag, optional label and
description. -/
def matchLocalePattern (s : String) : Option (String × String × String) :=
  (matchLocaleWithLang s.data 3).orElse fun _ => matchLocaleWithLang s.data 2

/-- `parseLocalizationFromListItem` from `pkg/parser/parser.go`. -/
def parseLocalizationFromListItem (text : String) :
    Option (String × ClaimLocalization) :=
  (matchLocalePattern text).map fun (loc, l, d) => (loc, ⟨l, goTrimSpace d⟩)

/-! ### The claims list (`parseClaimsList`)

Go maps are modelled as association lists; a Go map assignment
`m[k] = v` is `insertGo`, which overwrites an existing binding in place
and otherwise appends. -/

/-- Go map assignment on an association list. -/
def insertGo (k : String) (v : α) (m : List (String × α)) : List (String × α) :=
  if m.any (fun p => p.1 = k) then
    m.map (fun p => if p.1 = k then (k, v) else p)
  else m ++ [(k, v)]

/-- A markdown list item as seen by `parseClaimsList`: its flattened text
and the flattened texts of the items of a nested list beneath it. -/
structure LItem where
  text : String
  nested : List String
  deriving Repr, DecidableEq

/-- Parse one list item into a claim, attaching the localizations parsed
from its nested list items (`parseClaimsList` body). -/
def parseClaimsItem (it : LItem) : Option ClaimDef :=
  (parseClaimFromListItem it.text).map fun c =>
    { c with
      localizations := it.nested.foldl (fun locs t =>
        match parseLocalizationFromListItem t with
        | some (loc, l) => insertGo loc l locs
        | none => locs) c.localizations }

/-- `parseClaimsList` from `pkg/parser/parser.go`: each item that parses
as a claim is stored into the claims map under its name, overwriting any
earlier claim of the same name. -/
def parseClaimsList (items : List LItem) (m0 : List (String × ClaimDef)) :
    List (String × ClaimDef) :=
  items.foldl (fun m it =>
    match parseClaimsItem it with
    | none => m
    | some c => insertGo c.name c m) m0

/-- The claims parsed from `items` whose name is `n`, in item order. -/
def claimsNamed (n : String) (items : List LItem) : List ClaimDef :=
  (items.filterMap parseClaimsItem).filter (fun c => c.name = n)

/-! ### The format registry (`pkg/formats/format.go`)

The registry's map of generators is modelled by its key set, a list of
registered format names (Go map keys, hence without duplicates in any
reachable state).  `Registry.List` sorts the keys; `Registry.Get` is
membership. -/

/-- Lexicographic order on character lists, mirroring Go's byte-wise
string comparison on ASCII data. -/
def listLe : List Char → List Char → Bool
  | [], _ => true
  | _ :: _, [] => false
  | a :: as, b :: bs =>
    if a < b then true else if b < a then false else listLe as bs

/-- The string order used by Go's `sort.Strings`. -/
def strLeB (a b : String) : Bool := listLe a.data b.data

/-- `Registry.List`: all registered format names, sorted. -/
def registryList (r : List String) : List String :=
  @List.insertionSort String (fun a b => strLeB a b = true)
    (fun a b => inferInstanceAs (Decidable (strLeB a b = true))) r

/-- The error text of `ParseFormats` for an unregistered name. -/
def unknownFormatMsg (name : String) (r : List String) : String :=
  "unknown format: " ++ name ++ " (available: " ++ joinSep ", " (registryList r) ++ ")"

/-- The loop of `Registry.ParseFormats`: trim each part, skip empty
parts, fail on the first unregistered name, keep the rest in order. -/
def collectFormats (r : List String) : List String → Except String (List String)
  | [] => .ok []
  | p :: ps =>
    let name := goTrimSpace p
    if name = "" then collectFormats r ps
    else if r.contains name then (collectFormats r ps).map (fun rest => name :: rest)
    else .error (unknownFormatMsg name r)

/-- `Registry.ParseFormats`: a trimmed input that is empty or `"all"`
resolves to the sorted list of all registered names; otherwise the
comma-separated parts are resolved individually, and an empty result
list is the `"no valid formats specified"` error. -/
def parseFormats (r : List String) (s : String) : Except String (List String) :=
  let t := goTrimSpace s
  if t = "" || t = "all" then .ok (registryList r)
  else
    match collectFormats r (goSplitChar t ',') with
    | .error e => .error e
    | .ok fs => if fs.isEmpty then .error "no valid formats specified" else .ok fs

/-! ### Front matter (`extractFrontMatter`)

The YAML decoders are parameters of the embedding: `decD` models the
typed unmarshal that extracts the nested `display` locale map (returning
`none` on a YAML decode error, and the extracted map — possibly empty,
covering a missing `display` key — on success), and `decM` models the
generic `map[string]interface{}` unmarshal.  YAML scalar values are a
small inductive. -/

/-- A YAML / front-matter override value (`interface{}` in Go). -/
inductive OValue where
  | str (s : String)
  | int (n : Int)
  | list (xs : List OValue)
  | null
  deriving Repr

/-- Localized credential display properties (`DisplayLocalization`). -/
structure DisplayLocalization where
  name : String
  description : String
  deriving Repr, DecidableEq

/-- `extractFrontMatter` from `pkg/parser/parser.go`: contents must start
with a `---` fence and contain a closing `---`; the delimited block is
decoded twice, and every failure path silently yields empty results.
The function has no error result, mirroring the Go signature. -/
def extractFrontMatter
    (decD : String → Option (List (String × DisplayLocalization)))
    (decM : String → Option (List (String × OValue)))
    (content : String) :
    List (String × String) × List (String × DisplayLocalization) :=
  if ¬ strStartsWith content "---" then ([], [])
  else
    match findSubIdx (content.data.drop 3) ['-', '-', '-'] with
    | none => ([], [])
    | some endIndex =>
      let fm := String.mk ((content.data.drop 3).take endIndex)
      let displayLocs := (decD fm).getD []
      let metadata :=
        match decM fm with
        | some g => g.filterMap (fun (k, v) =>
            match v with
            | .str sv => some (k, sv)
            | _ => none)
        | none => []
      (metadata, displayLocs)

/-! ### `Parser.ToVCTM` (`pkg/parser/parser.go`)

The configuration carries the resolved default language (`Language`) and
base URL.  The `config` package itself is not among the provided sources;
only the two fields the embedded code reads are modelled. -/

/-- The configuration fields read by the embedded code
(`config.Config.Language` and `.BaseURL`). -/
structure Config where
  language : String
  baseURL : String
  deriving Repr, DecidableEq

/-- A credential-level display entry of the VCTM document
(`vctm.DisplayProperties`; the `rendering` sub-structure, which is
attached only to the first entry and never changes the entry list's
length or locales, is not modelled since no claim concerns it). -/
structure VctmDisplay where
  locale : String
  name : String
  description : String
  deriving Repr, DecidableEq

/-- One front-matter locale's display entry as emitted by
`Parser.ToVCTM` (lines 283–294): the default locale is skipped. -/
def displayLocEntry (lang : String) (p : String × DisplayLocalization) :
    Option VctmDisplay :=
  if p.1 = lang then none else some ⟨p.1, p.2.name, p.2.description⟩

/-- The display-entry list built by `Parser.ToVCTM` (lines 266–295): when
the document has a title or description, the default locale's entry is
emitted first, followed by the front-matter locales in map order with the
default locale skipped. -/
def toVCTMDisplay (cfg : Config) (title desc : String)
    (locs : List (String × DisplayLocalization)) : List VctmDisplay :=
  if title ≠ "" ∨ desc ≠ "" then
    ⟨cfg.language, title, desc⟩ :: locs.filterMap (displayLocEntry cfg.language)
  else []

/-- A claim-level display entry of the VCTM document
(`vctm.ClaimDisplay`, JSON keys `locale`, `label`, `description`). -/
structure VctmClaimDisplay where
  locale : String
  label : String
  description : String
  deriving Repr, DecidableEq

/-- A claims-array entry of the VCTM document
(`vctm.ClaimMetadataEntry`, JSON keys `path`, `display`, `mandatory`,
`sd`, `svg_id`; `path` holds the claim name as its single element). -/
structure VctmClaimEntry where
  path : List String
  display : List VctmClaimDisplay
  mandatory : Bool
  sd : String
  svgId : String
  deriving Repr, DecidableEq

/-- The claims array built by `Parser.ToVCTM` (lines 297–350): one entry
per claims-map binding; the default locale's display (present when the
claim has a description or display name, labelled by the display name or
the claim name) comes first, followed by the claim's localizations in map
order with the default locale skipped and empty labels replaced by the
display name when one exists. -/
def toVCTMClaims (cfg : Config) (claims : List (String × ClaimDef)) :
    List VctmClaimEntry :=
  claims.map fun (name, claim) =>
    { path := [name]
      mandatory := claim.mandatory
      sd := claim.sd
      svgId := claim.svgId
      display :=
        (if claim.description ≠ "" ∨ claim.displayName ≠ "" then
          [⟨cfg.language,
            if claim.displayName ≠ "" then claim.displayName else claim.name,
            claim.description⟩]
        else []) ++
        claim.localizations.filterMap (fun (locale, loc) =>
          if locale = cfg.language then none
          else some ⟨locale,
            if loc.label = "" ∧ claim.displayName ≠ "" then claim.displayName
            else loc.label,
            loc.description⟩) }

/-! ### The format-agnostic credential model (`pkg/formats/format.go`) -/

/-- A format-agnostic claim (`formats.ClaimDefinition`). -/
structure ClaimDefinition where
  name : String
  path : List String
  displayName : String
  type : String
  description : String
  mandatory : Bool
  sd : String
  svgId : String
  localizations : List (String × ClaimLocalization)
  formatMappings : List (String × String)
  deriving Repr

/-- The format-agnostic parsed credential (`formats.ParsedCredential`),
restricted to the fields read by the embedded generators.  The Go field
`Namespace` is `nameSpace` here (`namespace` is a Lean keyword). -/
structure ParsedCredential where
  id : String
  name : String
  vct : String
  docType : String
  nameSpace : String
  w3cTypes : List String
  w3cContext : List String
  description : String
  backgroundColor : String
  textColor : String
  logoPath : String
  logoAltText : String
  localizations : List (String × DisplayLocalization)
  claims : List ClaimDefinition
  formatOverrides : List (String × List (String × OValue))
  claimMappings : List (String × List (String × String))
  deriving Repr

/-- Type assertion `v.(string)` on an override value. -/
def assertString : OValue → Option String
  | .str s => some s
  | _ => none

/-- A string-valued per-format override: `parsed.FormatOverrides[fmt][key]`
asserted to `string`, with `""` for every failing step. -/
def overrideString (parsed : ParsedCredential) (fmtName key : String) : String :=
  match List.lookup fmtName parsed.formatOverrides with
  | some ov =>
    match List.lookup key ov with
    | some v => (assertString v).getD ""
    | none => ""
  | none => ""

/-! ### The mddl generator (mso_mdoc, `pkg/formats/mddl/generator.go`) -/

/-- `mddl.Generator.DeriveIdentifier`: explicit doctype, else a non-empty
string `doctype` override for format `mddl`, else — when a base URL and
an id are present — the reverse-domain derivation: strip an `https://` or
`http://` prefix and a trailing `/`, split on `.`, reverse the segments,
join with `.` and append `.credentials.<id>`; else empty. -/
def mddlDeriveIdentifier (parsed : ParsedCredential) (cfg : Config) : String :=
  if parsed.docType ≠ "" then parsed.docType
  else
    let ov := overrideString parsed "mddl" "doctype"
    if ov ≠ "" then ov
    else if cfg.baseURL ≠ "" ∧ parsed.id ≠ "" then
      let b := goTrimSuffix (goTrimPrefix (goTrimPrefix cfg.baseURL "https://") "http://") "/"
      joinSep "." (goSplitChar b '.').reverse ++ ".credentials." ++ parsed.id
    else ""

/-- The doctype derivation as the specification words it, for comparison
with the embedded code: strip the URL scheme and a trailing slash, split
the remainder on `.`, reverse the segment order, join with `.` and append
`.credentials.<id>`. -/
def specReverseDomainDoctype (baseURL id : String) : String :=
  let remainder :=
    goTrimSuffix (goTrimPrefix (goTrimPrefix baseURL "https://") "http://") "/"
  joinSep "." (goSplitChar remainder '.').reverse ++ ".credentials." ++ id

/-- `mddl.Generator.deriveNamespace`: explicit namespace, else a
non-empty `namespace` override, else the derived doctype. -/
def mddlDeriveNamespace (parsed : ParsedCredential) (cfg : Config) : String :=
  if parsed.nameSpace ≠ "" then parsed.nameSpace
  else
    let ov := overrideString parsed "mddl" "namespace"
    if ov ≠ "" then ov
    else mddlDeriveIdentifier parsed cfg

/-- `mddl.mapTypeToCDDL`: the fixed markdown-type → CDDL lookup table. -/
def mapTypeToCDDL (t : String) : String :=
  match lowerStr t with
  | "string" => "tstr"
  | "number" => "int"
  | "integer" => "uint"
  | "boolean" => "bool"
  | "bool" => "bool"
  | "date" => "full-date"
  | "datetime" => "tdate"
  | "image" => "bstr"
  | "object" => ""
  | "array" => ""
  | _ => "tstr"

/-- The claim name emitted by a generator for format `fmtName`: the
claim's own per-format mapping first, then the credential-level mapping
table, then the claim's name. -/
def mappedClaimName (parsed : ParsedCredential) (fmtName : String)
    (claim : ClaimDefinition) : String :=
  let n1 := match List.lookup fmtName claim.formatMappings with
    | some m => m
    | none => claim.name
  match List.lookup fmtName parsed.claimMappings with
  | some ms =>
    match List.lookup claim.name ms with
    | some m2 => m2
    | none => n1
  | none => n1

/-- mddl logo (`mddl.Logo`). -/
structure MdlLogo where
  uri : String
  altText : String
  deriving Repr, DecidableEq

/-- mddl credential display entry (`mddl.DisplayProperties`). -/
structure MdlDisplay where
  locale : String
  name : String
  description : String
  logo : Option MdlLogo
  backgroundColor : String
  textColor : String
  deriving Repr, DecidableEq

/-- mddl claim display entry (`mddl.ClaimDisplay`). -/
structure MdlClaimDisplay where
  locale : String
  name : String
  deriving Repr, DecidableEq

/-- mddl claim metadata (`mddl.ClaimMetadata`). -/
structure MdlClaimMeta where
  display : List MdlClaimDisplay
  mandatory : Bool
  valueType : String
  deriving Repr, DecidableEq

/-- The mddl output document (`mddl.MDDL`); `claims` maps a namespace to
its claim map. -/
structure MDDLDoc where
  format : String
  docType : String
  display : List MdlDisplay
  claims : List (String × List (String × MdlClaimMeta))
  order : Option Int
  deriving Repr, DecidableEq

/-- `mddl.Generator.Generate`: fails when no doctype can be derived;
otherwise emits the mso_mdoc configuration with display entries (default
locale first, localizations skipping the default) and all claims grouped
under the single derived namespace.  The `order` override is taken when
it is an integer (the Go float64 coercion branch concerns YAML floats,
which `OValue` does not carry). -/
def mddlGenerate (parsed : ParsedCredential) (cfg : Config) :
    Except String MDDLDoc :=
  let doctype := mddlDeriveIdentifier parsed cfg
  let ns := mddlDeriveNamespace parsed cfg
  if doctype = "" then
    .error "mddl: doctype is required (set doctype in front matter or provide base_url)"
  else
    let display :=
      if parsed.name ≠ "" ∨ parsed.description ≠ "" then
        { locale := cfg.language, name := parsed.name
          description := parsed.description
          logo := if parsed.logoPath ≠ "" then
              some ⟨parsed.logoPath, parsed.logoAltText⟩
            else none
          backgroundColor := parsed.backgroundColor
          textColor := parsed.textColor : MdlDisplay } ::
        parsed.localizations.filterMap (fun (locale, loc) =>
          if locale = cfg.language then none
          else some ⟨locale, loc.name, loc.description, none, "", ""⟩)
      else []
    let claims :=
      if parsed.claims.isEmpty then []
      else
        [(ns, parsed.claims.foldl (fun acc claim =>
          let claimName := mappedClaimName parsed "mddl" claim
          let displayName :=
            if claim.displayName = "" then claim.name else claim.displayName
          let displays :=
            ⟨cfg.language, displayName⟩ ::
            claim.localizations.filterMap (fun (locale, loc) =>
              if locale = cfg.language then none
              else some ⟨locale, if loc.label = "" then displayName else loc.label⟩)
          insertGo claimName
            { display := displays, mandatory := claim.mandatory
              valueType := mapTypeToCDDL claim.type } acc) [])]
    let order :=
      match List.lookup "mddl" parsed.formatOverrides with
      | some ov =>
        match List.lookup "order" ov with
        | some (.int n) => some n
        | _ => none
      | none => none
    .ok { format := "mso_mdoc", docType := doctype, display := display
          claims := claims, order := order }

/-! ### The w3c generator (`pkg/formats/w3c/generator.go`) -/

/-- Remove every space and hyphen (`strings.ReplaceAll` twice). -/
def removeSpacesHyphens (s : String) : String :=
  String.mk (s.data.filter (fun c => c ≠ ' ' ∧ c ≠ '-'))

/-- Go's `isSeparator` over ASCII: letters, digits and underscore are not
separators, everything else is. -/
def goSeparator (c : Char) : Bool :=
  ¬ (isAsciiAlpha c || c.isDigit || c = '_')

/-- Helper for `goTitle`: uppercase each character that follows a
separator. -/
def goTitleAux : Bool → List Char → List Char
  | _, [] => []
  | prevSep, c :: r =>
    (if prevSep then c.toUpper else c) :: goTitleAux (goSeparator c) r

/-- Go `strings.Title` over ASCII. -/
def goTitle (s : String) : String :=
  String.mk (goTitleAux true s.data)

/-- The `type` override list for format `w3c`: the `string` elements of
the `type` override value when it is a list. -/
def w3cOverrideTypeList (parsed : ParsedCredential) : List String :=
  match List.lookup "w3c" parsed.formatOverrides with
  | some ov =>
    match List.lookup "type" ov with
    | some (.list xs) => xs.filterMap assertString
    | _ => []
  | none => []

/-- `w3c.Generator.deriveTypes`: an explicit type list is returned
unchanged when it already contains `"VerifiableCredential"` anywhere and
is prefixed by it otherwise; the same for a non-empty override list;
otherwise `"VerifiableCredential"` followed by the credential name with
spaces and hyphens removed, or by `strings.Title` of the id when the
name is empty. -/
def w3cDeriveTypes (parsed : ParsedCredential) (_cfg : Config) : List String :=
  if ¬ parsed.w3cTypes.isEmpty then
    if parsed.w3cTypes.contains "VerifiableCredential" then parsed.w3cTypes
    else "VerifiableCredential" :: parsed.w3cTypes
  else
    let result := w3cOverrideTypeList parsed
    if ¬ result.isEmpty then
      if result.contains "VerifiableCredential" then result
      else "VerifiableCredential" :: result
    else if parsed.name ≠ "" then
      ["VerifiableCredential", removeSpacesHyphens parsed.name]
    else if parsed.id ≠ "" then
      ["VerifiableCredential", goTitle parsed.id]
    else ["VerifiableCredential"]

/-- The `context` override list for format `w3c`. -/
def w3cOverrideContextList (parsed : ParsedCredential) : List String :=
  match List.lookup "w3c" parsed.formatOverrides with
  | some ov =>
    match List.lookup "context" ov with
    | some (.list xs) => xs.filterMap assertString
    | _ => []
  | none => []

/-- `w3c.Generator.deriveContext`. -/
def w3cDeriveContext (parsed : ParsedCredential) (cfg : Config) : List String :=
  if ¬ parsed.w3cContext.isEmpty then parsed.w3cContext
  else
    let result := w3cOverrideContextList parsed
    if ¬ result.isEmpty then result
    else
      "https://www.w3.org/2018/credentials/v1" ::
      (if cfg.baseURL ≠ "" ∧ parsed.id ≠ "" then
        [goTrimSuffix cfg.baseURL "/" ++ "/contexts/" ++ parsed.id ++ "/v1"]
      else [])

/-- A JSON-Schema property (`w3c.SchemaProperty`, restricted to the
fields the generator populates). -/
inductive SchemaProp where
  | node (type title description format contentEncoding : String)
      (items : Option SchemaProp)
  deriving Repr

/-- `w3c.mapTypeToJSONSchema`. -/
def mapTypeToJSONSchema (t : String) : SchemaProp :=
  match lowerStr t with
  | "string" => .node "string" "" "" "" "" none
  | "number" => .node "number" "" "" "" "" none
  | "integer" => .node "integer" "" "" "" "" none
  | "boolean" => .node "boolean" "" "" "" "" none
  | "bool" => .node "boolean" "" "" "" "" none
  | "date" => .node "string" "" "" "date" "" none
  | "datetime" => .node "string" "" "" "date-time" "" none
  | "image" => .node "string" "" "" "" "base64" none
  | "object" => .node "object" "" "" "" "" none
  | "array" => .node "array" "" "" "" "" (some (.node "string" "" "" "" "" none))
  | _ => .node "string" "" "" "" "" none

/-- Set the `title` and `description` of a schema property. -/
def SchemaProp.withTitleDesc : SchemaProp → String → String → SchemaProp
  | .node ty _ _ fmt enc items, title, desc => .node ty title desc fmt enc items

/-- The `credentialSubject` schema (`w3c.CredentialSubjectSchema`). -/
structure W3CCredSubject where
  type : String
  properties : List (String × SchemaProp)
  required : List String
  deriving Repr

/-- The w3c output document (`w3c.W3CCredentialSchema`; the
`credentialSchema` wrapper's single `credentialSubject` property is
inlined as `credentialSubject`). -/
structure W3CDoc where
  type : List String
  context : List String
  name : String
  description : String
  displayColors : Option (String × String)
  schemaType : String
  credentialSubject : Option W3CCredSubject
  deriving Repr

/-- `w3c.Generator.Generate`: builds the schema document; it has no error
path (the Go function only marshals at the end). -/
def w3cGenerate (parsed : ParsedCredential) (cfg : Config) :
    Except String W3CDoc :=
  let subject :=
    if parsed.claims.isEmpty then none
    else
      some (parsed.claims.foldl (fun (acc : W3CCredSubject) claim =>
        let claimName := mappedClaimName parsed "w3c" claim
        let prop := (mapTypeToJSONSchema claim.type).withTitleDesc
          (if claim.displayName = "" then claim.name else claim.displayName)
          claim.description
        { acc with
          properties := insertGo claimName prop acc.properties
          required := if claim.mandatory then acc.required ++ [claimName]
            else acc.required })
        { type := "object", properties := [], required := [] })
  .ok
    { type := w3cDeriveTypes parsed cfg
      context := w3cDeriveContext parsed cfg
      name := parsed.name
      description := parsed.description
      displayColors :=
        if parsed.backgroundColor ≠ "" ∨ parsed.textColor ≠ "" then
          some (parsed.backgroundColor, parsed.textColor)
        else none
      schemaType := if parsed.claims.isEmpty then "" else "JsonSchema"
      credentialSubject := subject }

/-! ### The vctmfmt generator's claims array
(`pkg/formats/vctmfmt/generator.go`, lines 78–100)

The generator assembles `map[string]interface{}` objects with
conditionally present keys; they are modelled as key/value lists in
insertion order over a small JSON value type. -/

/-- A JSON value as assembled by the vctmfmt generator. -/
inductive JVal where
  | str (s : String)
  | arr (xs : List JVal)
  | obj (fields : List (String × JVal))
  deriving Repr

/-- One claims-array entry of the vctmfmt generator's output: `path`
always; `display` (a single `{lang, label}` object) only when the claim
has a display name; `description`, `sd` and `svg_id` only when
non-empty. -/
def vctmfmtClaimEntry (c : ClaimDefinition) : List (String × JVal) :=
  [("path", JVal.arr (c.path.map .str))] ++
  (if c.displayName ≠ "" then
    [("display", JVal.arr [.obj [("lang", .str "en"), ("label", .str c.displayName)]])]
  else []) ++
  (if c.description ≠ "" then [("description", JVal.str c.description)] else []) ++
  (if c.sd ≠ "" then [("sd", JVal.str c.sd)] else []) ++
  (if c.svgId ≠ "" then [("svg_id", JVal.str c.svgId)] else [])

/-- The claims array of the vctmfmt generator's output. -/
def vctmfmtClaims (cs : List ClaimDefinition) : List (List (String × JVal)) :=
  cs.map vctmfmtClaimEntry

/-! ### Multi-format orchestration (`pkg/parser/converter.go`) -/

/-- A generator's heterogeneous output. -/
inductive GenOutput where
  | mddl (d : MDDLDoc)
  | w3c (d : W3CDoc)
  deriving Repr

/-- The type of a registered generator's `Generate` method. -/
def GenFn : Type := ParsedCredential → Config → Except String GenOutput

/-- The mddl generator as a registry entry. -/
def mddlGen : GenFn := fun p c => (mddlGenerate p c).map .mddl

/-- The w3c generator as a registry entry. -/
def w3cGen : GenFn := fun p c => (w3cGenerate p c).map .w3c

/-- The loop of `Parser.Generate`: unknown format names are skipped, the
first generation error is returned as the result of the whole call, and
successful outputs are stored into the results map. -/
def parserGenerateAux (registry : List (String × GenFn))
    (cred : ParsedCredential) (cfg : Config) :
    List String → List (String × GenOutput) →
    Except String (List (String × GenOutput))
  | [], acc => .ok acc
  | n :: ns, acc =>
    match List.lookup n registry with
    | none => parserGenerateAux registry cred cfg ns acc
    | some g =>
      match g cred cfg with
      | .error e => .error e
      | .ok out => parserGenerateAux registry cred cfg ns (insertGo n out acc)

/-- `Parser.Generate` from `pkg/parser/converter.go`, parameterized by
the registry contents (the Go code reads the process-global default
registry). -/
def parserGenerate (registry : List (String × GenFn))
    (cred : ParsedCredential) (cfg : Config) (names : List String) :
    Except String (List (String × GenOutput)) :=
  parserGenerateAux registry cred cfg names []

/-! ### Concrete inputs used in witnesses and counterexamples -/

/-- A two-item document redeclaring claim `x`, the second declaration
carrying a nested localization. -/
def itemFirst : LItem := ⟨"`x` (string): first", []⟩

/-- The second, overriding declaration of claim `x`. -/
def itemSecond : LItem := ⟨"`x` (string): second", ["de-DE: \"Zwei\" - desc"]⟩

/-- The claim parsed from `itemFirst`. -/
def claimFirst : ClaimDef :=
  { name := "x", type := "string", description := "first", mandatory := false,
    sd := "", svgId := "", displayName := "", localizations := [] }

/-- The claim parsed from `itemSecond`. -/
def claimSecond : ClaimDef :=
  { name := "x", type := "string", description := "second", mandatory := false,
    sd := "", svgId := "", displayName := "",
    localizations := [("de-DE", ⟨"Zwei", "desc"⟩)] }

/-- A concrete registry with the three real format names. -/
def regThree : List String := ["w3c", "mddl", "vctm"]

/-- A credential with every field empty. -/
def emptyCredential : ParsedCredential :=
  { id := "", name := "", vct := "", docType := "", nameSpace := "",
    w3cTypes := [], w3cContext := [], description := "", backgroundColor := "",
    textColor := "", logoPath := "", logoAltText := "", localizations := [],
    claims := [], formatOverrides := [], claimMappings := [] }

/-- The credential of the spec's doctype-derivation example. -/
def credSiros : ParsedCredential := { emptyCredential with id := "pid" }

/-- The configuration of the spec's doctype-derivation example. -/
def cfgSiros : Config := ⟨"en-US", "https://registry.siros.org"⟩

/-- A registry holding the mddl and w3c generators. -/
def registryTwo : List (String × GenFn) := [("mddl", mddlGen), ("w3c", w3cGen)]

/-- A configuration with no base URL. -/
def cfgNoBase : Config := ⟨"en-US", ""⟩

/-- The mddl generator's missing-doctype error text. -/
def mddlDoctypeError : String :=
  "mddl: doctype is required (set doctype in front matter or provide base_url)"

/-- The w3c document generated from the empty credential. -/
def w3cEmptyDoc : W3CDoc :=
  { type := ["VerifiableCredential"],
    context := ["https://www.w3.org/2018/credentials/v1"],
    name := "", description := "", displayColors := none,
    schemaType := "", credentialSubject := none }

/-- The credential of the spec's W3C type-derivation example. -/
def credPID : ParsedCredential :=
  { emptyCredential with name := "Person Identification Data" }

/-- A credential whose explicit W3C type list carries
`VerifiableCredential` in second position. -/
def credVCSecond : ParsedCredential :=
  { emptyCredential with
    w3cTypes := ["PersonCredential", "VerifiableCredential"] }

/-- A mandatory, localized claim in the format-agnostic model (the C2
failing input, converter form). -/
def claimGivenName : ClaimDefinition :=
  { name := "given_name", path := ["given_name"], displayName := "Given Name",
    type := "string", description := "", mandatory := true, sd := "",
    svgId := "", localizations := [("de-DE", ⟨"Vorname", "Der Vorname"⟩)],
    formatMappings := [] }

/-- The same claim in the parser model, as `Parser.ToVCTM` consumes it. -/
def claimDefGivenName : ClaimDef :=
  { name := "given_name", type := "string", description := "",
    mandatory := true, sd := "", svgId := "", displayName := "Given Name",
    localizations := [("de-DE", ⟨"Vorname", "Der Vorname"⟩)] }

/-- A credential with a per-format w3c `type` override not containing
`VerifiableCredential`. -/
def credOverride : ParsedCredential :=
  { emptyCredential with
    formatOverrides := [("w3c", [("type", OValue.list [.str "FooCredential"])])] }

/-- A credential whose per-format w3c `type` override carries
`VerifiableCredential` in second position. -/
def credOverrideVC : ParsedCredential :=
  { emptyCredential with
    formatOverrides := [("w3c", [("type",
      OValue.list [.str "BarCredential", .str "VerifiableCredential"])])] }

/-- A claim definition with every field empty. -/
def emptyClaim : ClaimDef :=
  { name := "", type := "", description := "", mandatory := false, sd := "",
    svgId := "", displayName := "", localizations := [] }

/-! ### Helper lemmas about Go-map insertion -/

theorem lookup_replace (k : String) (v : α) (m : List (String × α)) :
    List.lookup k (m.map (fun p => if p.1 = k then (k, v) else p)) =
      if m.any (fun p => p.1 = k) then some v else none := by
  induction m with
  | nil => simp
  | cons a m ih =>
    obtain ⟨ak, av⟩ := a
    by_cases h : ak = k
    · simp [h, List.lookup_cons]
    · have hk : (k == ak) = false := by
        simp only [beq_eq_false_iff_ne, ne_eq]
        exact fun hh => h hh.symm
      rw [List.map_cons, if_neg h, List.lookup_cons]
      rw [ih]
      simp only [List.any_cons, Bool.or_eq_true, decide_eq_true_eq, hk]
      by_cases hany : (m.any fun p => decide (p.1 = k)) = true
      · simp [hany]
      · simp [hany, h]

theorem lookup_replace_ne (k k' : String) (v : α) (m : List (String × α))
    (h : k' ≠ k) :
    List.lookup k' (m.map (fun p => if p.1 = k then (k, v) else p)) =
      List.lookup k' m := by
  induction m with
  | nil => simp
  | cons a m ih =>
    obtain ⟨ak, av⟩ := a
    by_cases ha : ak = k
    · have hk : (k' == k) = false := by simp [h]
      have hk2 : (k' == ak) = false := by simp [ha, h]
      simp [ha, List.lookup_cons, hk, hk2, ih]
    · simp only [List.map_cons, if_neg ha, List.lookup_cons]
      cases hbe : (k' == ak) <;> simp [ih]

theorem lookup_append_single_self (k : String) (v : α) (m : List (String × α))
    (hm : m.any (fun p => p.1 = k) = false) :
    List.lookup k (m ++ [(k, v)]) = some v := by
  induction m with
  | nil => simp
  | cons a m ih =>
    obtain ⟨ak, av⟩ := a
    simp only [List.any_cons, Bool.or_eq_false_iff, decide_eq_false_iff_not] at hm
    have hk : (k == ak) = false := by
      simp only [beq_eq_false_iff_ne, ne_eq]
      exact fun hh => hm.1 hh.symm
    simpa [List.lookup_cons, hk] using ih (by simpa using hm.2)

theorem lookup_append_single_ne (k k' : String) (v : α) (m : List (String × α))
    (h : k' ≠ k) :
    List.lookup k' (m ++ [(k, v)]) = List.lookup k' m := by
  induction m with
  | nil =>
    have hk : (k' == k) = false := by simp [h]
    simp [List.lookup_cons, hk]
  | cons a m ih =>
    obtain ⟨ak, av⟩ := a
    simp only [List.cons_append, List.lookup_cons]
    cases hbe : (k' == ak) <;> simp [ih]

theorem lookup_insertGo_self (k : String) (v : α) (m : List (String × α)) :
    List.lookup k (insertGo k v m) = some v := by
  unfold insertGo
  by_cases hm : m.any (fun p => p.1 = k)
  · simp [hm, lookup_replace]
  · simp only [Bool.not_eq_true] at hm
    simp [hm, lookup_append_single_self k v m hm]

theorem lookup_insertGo_ne (k k' : String) (v : α) (m : List (String × α))
    (h : k' ≠ k) : List.lookup k' (insertGo k v m) = List.lookup k' m := by
  unfold insertGo
  by_cases hm : m.any (fun p => p.1 = k)
  · simp [hm, lookup_replace_ne k k' v m h]
  · simp only [Bool.not_eq_true] at hm
    simp [hm, lookup_append_single_ne k k' v m h]

theorem keys_insertGo (k : String) (v : α) (m : List (String × α)) :
    (insertGo k v m).map Prod.fst =
      if m.any (fun p => p.1 = k) then m.map Prod.fst
      else m.map Prod.fst ++ [k] := by
  unfold insertGo
  by_cases hm : m.any (fun p => p.1 = k)
  · simp only [hm, if_true, List.map_map]
    congr 1
    funext p
    by_cases h : p.1 = k <;> simp [h]
  · simp [hm]

theorem keys_nodup_insertGo (k : String) (v : α) (m : List (String × α))
    (h : (m.map Prod.fst).Nodup) : ((insertGo k v m).map Prod.fst).Nodup := by
  rw [keys_insertGo]
  by_cases hm : m.any (fun p => p.1 = k)
  · simpa [hm] using h
  · have hk : k ∉ m.map Prod.fst := by
      simp only [List.any_eq_true, decide_eq_true_eq] at hm
      simp only [List.mem_map]
      rintro ⟨p, hp, rfl⟩
      exact hm ⟨p, hp, rfl⟩
    simp [hm, List.nodup_append, h, hk]

theorem mem_keys_of_lookup_some (k : String) (v : α) (m : List (String × α))
    (h : List.lookup k m = some v) : k ∈ m.map Prod.fst := by
  induction m with
  | nil => simp at h
  | cons a m ih =>
    obtain ⟨ak, av⟩ := a
    rw [List.lookup_cons] at h
    cases hbe : (k == ak) with
    | true =>
      have : k = ak := by simpa using hbe
      simp [this]
    | false =>
      simp only [hbe] at h
      simp [ih h]

/-! ### Behaviour of `parseClaimsList` -/

/-- One step of the `parseClaimsList` fold. -/
theorem parseClaimsList_cons (it : LItem) (items : List LItem)
    (m : List (String × ClaimDef)) :
    parseClaimsList (it :: items) m =
      parseClaimsList items
        (match parseClaimsItem it with
         | none => m
         | some c => insertGo c.name c m) := rfl

/-- Unfolding `claimsNamed` over the head item. -/
theorem claimsNamed_cons (n : String) (it : LItem) (items : List LItem) :
    claimsNamed n (it :: items) =
      match parseClaimsItem it with
      | none => claimsNamed n items
      | some c =>
        if c.name = n then c :: claimsNamed n items else claimsNamed n items := by
  unfold claimsNamed
  cases h : parseClaimsItem it with
  | none => simp [List.filterMap_cons, h]
  | some c =>
    by_cases hn : c.name = n <;>
      simp [List.filterMap_cons, h, List.filter_cons, hn]

/-- The claims map built by `parseClaimsList` holds, for each name, the
last claim of that name among the parsed items (or whatever the initial
map held). -/
theorem lookup_parseClaimsList (items : List LItem)
    (m : List (String × ClaimDef)) (n : String) :
    List.lookup n (parseClaimsList items m) =
      match (claimsNamed n items).getLast? with
      | some c => some c
      | none => List.lookup n m := by
  induction items generalizing m with
  | nil => simp [parseClaimsList, claimsNamed]
  | cons it items ih =>
    rw [parseClaimsList_cons, claimsNamed_cons]
    cases h : parseClaimsItem it with
    | none => simp only; exact ih m
    | some c =>
      by_cases hn : c.name = n
      · simp only [hn, if_true]
        cases hcl : claimsNamed n items with
        | nil =>
          rw [ih, hcl]
          simp only [List.getLast?_singleton]
          subst hn
          exact lookup_insertGo_self c.name c m
        | cons x xs =>
          rw [ih, hcl, List.getLast?_cons_cons]
          cases hgl : (x :: xs).getLast? with
          | none => simp at hgl
          | some c' => simp
      · simp only [hn, if_false]
        rw [ih]
        cases (claimsNamed n items).getLast? with
        | some c' => simp
        | none =>
          simp only
          exact lookup_insertGo_ne c.name n c m (fun hh => hn hh.symm)

/-- `parseClaimsList` preserves key uniqueness of the claims map. -/
theorem keys_nodup_parseClaimsList (items : List LItem)
    (m : List (String × ClaimDef)) (h : (m.map Prod.fst).Nodup) :
    ((parseClaimsList items m).map Prod.fst).Nodup := by
  induction items generalizing m with
  | nil => exact h
  | cons it items ih =>
    rw [parseClaimsList_cons]
    cases hp : parseClaimsItem it with
    | none => exact ih m h
    | some c => exact ih _ (keys_nodup_insertGo c.name c m h)

/-- C10: when exactly two list items declare claims with the same name,
the parsed claims map has exactly one entry for that name, holding the
later item's definition (the earlier one is silently replaced). -/
theorem parseClaimsList_last_wins (items : List LItem) (n : String)
    (c1 c2 : ClaimDef) (h : claimsNamed n items = [c1, c2]) :
    List.lookup n (parseClaimsList items []) = some c2 ∧
    ((parseClaimsList items []).map Prod.fst).count n = 1 := by
  have hl : List.lookup n (parseClaimsList items []) = some c2 := by
    rw [lookup_parseClaimsList, h]
    simp
  refine ⟨hl, ?_⟩
  have hnd := keys_nodup_parseClaimsList items [] (by simp)
  exact List.count_eq_one_of_mem hnd (mem_keys_of_lookup_some _ _ _ hl)

/-- Witness for C10: the duplicate-name document concretely yields one
entry holding the later definition with its localization. -/
theorem parseClaimsList_last_wins_witness :
    claimsNamed "x" [itemFirst, itemSecond] = [claimFirst, claimSecond] ∧
    (List.lookup "x" (parseClaimsList [itemFirst, itemSecond] []) = some claimSecond ∧
     ((parseClaimsList [itemFirst, itemSecond] []).map Prod.fst).count "x" = 1) :=
  ⟨by decide,
   parseClaimsList_last_wins [itemFirst, itemSecond] "x" claimFirst claimSecond
     (by decide)⟩

/-! ### Behaviour of the format registry -/

/-- If every comma-separated part trims to empty, the resolution loop
returns the empty list. -/
theorem collectFormats_ok_of_all_empty (r parts : List String)
    (h : ∀ p ∈ parts, goTrimSpace p = "") : collectFormats r parts = .ok [] := by
  induction parts with
  | nil => rfl
  | cons p ps ih =>
    have hp := h p (List.mem_cons_self p ps)
    have := ih (fun q hq => h q (List.mem_cons_of_mem p hq))
    simp [collectFormats, hp, this]

/-- Unfolding of the resolution loop on a head part. -/
theorem collectFormats_cons (r : List String) (p : String) (ps : List String) :
    collectFormats r (p :: ps) =
      if goTrimSpace p = "" then collectFormats r ps
      else if r.contains (goTrimSpace p) then
        (collectFormats r ps).map (fun rest => goTrimSpace p :: rest)
      else .error (unknownFormatMsg (goTrimSpace p) r) := rfl

/-- If some part trims to a non-empty unregistered name, the resolution
loop fails with the unknown-format error for such a name. -/
theorem collectFormats_error_of_bad (r parts : List String)
    (h : ∃ p ∈ parts, goTrimSpace p ≠ "" ∧ r.contains (goTrimSpace p) = false) :
    ∃ n, r.contains n = false ∧
      collectFormats r parts = .error (unknownFormatMsg n r) := by
  induction parts with
  | nil => simp at h
  | cons p ps ih =>
    by_cases hp : goTrimSpace p = ""
    · obtain ⟨q, hq, hq1, hq2⟩ := h
      have hq' : q ∈ ps := by
        rcases List.mem_cons.mp hq with rfl | hmem
        · exact absurd hp hq1
        · exact hmem
      obtain ⟨n, hn, herr⟩ := ih ⟨q, hq', hq1, hq2⟩
      exact ⟨n, hn, by rw [collectFormats_cons, if_pos hp, herr]⟩
    · by_cases hr : r.contains (goTrimSpace p) = true
      · obtain ⟨q, hq, hq1, hq2⟩ := h
        have hq' : q ∈ ps := by
          rcases List.mem_cons.mp hq with rfl | hmem
          · rw [hr] at hq2; exact absurd hq2 (by simp)
          · exact hmem
        obtain ⟨n, hn, herr⟩ := ih ⟨q, hq', hq1, hq2⟩
        refine ⟨n, hn, ?_⟩
        rw [collectFormats_cons, if_neg hp, if_pos hr, herr]
        rfl
      · refine ⟨goTrimSpace p, by simpa using hr, ?_⟩
        rw [collectFormats_cons, if_neg hp, if_neg hr]

/-- Head characterization of the list order. -/
theorem listLe_cons_iff (a b : Char) (as bs : List Char) :
    listLe (a :: as) (b :: bs) = true ↔ a < b ∨ (a = b ∧ listLe as bs = true) := by
  rcases lt_trichotomy a b with h | h | h
  · simp [listLe, h]
  · subst h
    simp [listLe, lt_irrefl]
  · simp [listLe, h, asymm h, ne_of_gt h]

/-- The list order is total. -/
theorem listLe_total (as bs : List Char) :
    listLe as bs = true ∨ listLe bs as = true := by
  induction as generalizing bs with
  | nil => left; rfl
  | cons a as ih =>
    cases bs with
    | nil => right; rfl
    | cons b bs =>
      rcases lt_trichotomy a b with h | h | h
      · left; simp [listLe_cons_iff, h]
      · subst h
        rcases ih bs with h2 | h2
        · left; simp [listLe_cons_iff, h2]
        · right; simp [listLe_cons_iff, h2]
      · right; simp [listLe_cons_iff, h]

/-- The list order is transitive. -/
theorem listLe_trans (as bs cs : List Char) (h1 : listLe as bs = true)
    (h2 : listLe bs cs = true) : listLe as cs = true := by
  induction as generalizing bs cs with
  | nil => rfl
  | cons a as ih =>
    cases bs with
    | nil => simp [listLe] at h1
    | cons b bs =>
      cases cs with
      | nil => simp [listLe] at h2
      | cons c cs =>
        rw [listLe_cons_iff] at h1 h2 ⊢
        rcases h1 with h1 | ⟨rfl, h1⟩
        · rcases h2 with h2 | ⟨rfl, h2⟩
          · exact Or.inl (lt_trans h1 h2)
          · exact Or.inl h1
        · rcases h2 with h2 | ⟨rfl, h2⟩
          · exact Or.inl h2
          · exact Or.inr ⟨rfl, ih bs cs h1 h2⟩

/-- `Registry.List` is sorted in Go's string order. -/
theorem registryList_sorted (r : List String) :
    (registryList r).Sorted (fun a b => strLeB a b = true) :=
  @List.sorted_insertionSort String (fun a b => strLeB a b = true)
    (fun a b => inferInstanceAs (Decidable (strLeB a b = true)))
    ⟨fun a b => listLe_total a.data b.data⟩
    ⟨fun a b c => listLe_trans a.data b.data c.data⟩ r

/-- `Registry.List` carries each registered name exactly once. -/
theorem registryList_count (r : List String) (h : r.Nodup) (n : String) :
    (registryList r).count n = if n ∈ r then 1 else 0 := by
  unfold registryList
  rw [(@List.perm_insertionSort String (fun a b => strLeB a b = true)
    (fun a b => inferInstanceAs (Decidable (strLeB a b = true))) r).count_eq]
  by_cases hm : n ∈ r
  · simp [hm, List.count_eq_one_of_mem h hm]
  · simp [hm, List.count_eq_zero_of_not_mem hm]

/-- C1 (amended): resolving a comma-separated list containing an
unregistered non-empty name fails with the `unknown format` error that
names the sorted registered set; resolving `"all"` returns every
registered name exactly once in sorted order; resolving an input that is
empty after trimming also returns the full sorted registered list (the
same as `"all"`, not an error); and an input whose comma-separated parts
all trim to empty fails with the `no valid formats specified` error. -/
theorem parseFormats_resolution :
    (∀ (r : List String) (s : String),
      goTrimSpace s ≠ "" → goTrimSpace s ≠ "all" →
      (∃ p ∈ goSplitChar (goTrimSpace s) ',',
        goTrimSpace p ≠ "" ∧ r.contains (goTrimSpace p) = false) →
      ∃ n, r.contains n = false ∧
        parseFormats r s = .error (unknownFormatMsg n r)) ∧
    (∀ r : List String, r.Nodup →
      parseFormats r "all" = .ok (registryList r) ∧
      (registryList r).Sorted (fun a b => strLeB a b = true) ∧
      ∀ n, (registryList r).count n = if n ∈ r then 1 else 0) ∧
    (∀ (r : List String) (s : String), goTrimSpace s = "" →
      parseFormats r s = .ok (registryList r)) ∧
    (∀ (r : List String) (s : String),
      goTrimSpace s ≠ "" → goTrimSpace s ≠ "all" →
      (∀ p ∈ goSplitChar (goTrimSpace s) ',', goTrimSpace p = "") →
      parseFormats r s = .error "no valid formats specified") := by
  refine ⟨?_, ?_, ?_, ?_⟩
  · intro r s h1 h2 hbad
    obtain ⟨n, hn, herr⟩ :=
      collectFormats_error_of_bad r (goSplitChar (goTrimSpace s) ',') hbad
    exact ⟨n, hn, by simp [parseFormats, h1, h2, herr]⟩
  · intro r hnd
    have hall : goTrimSpace "all" = "all" := rfl
    exact ⟨by simp [parseFormats, hall], registryList_sorted r,
      registryList_count r hnd⟩
  · intro r s h
    simp [parseFormats, h]
  · intro r s h1 h2 hall
    have := collectFormats_ok_of_all_empty r (goSplitChar (goTrimSpace s) ',') hall
    simp [parseFormats, h1, h2, this]

/-- Witness for C1: each conjunct of the amended registry contract at a
concrete registry and input. -/
theorem parseFormats_resolution_witness :
    (∃ n, regThree.contains n = false ∧
      parseFormats regThree "vctm, bogus" = .error (unknownFormatMsg n regThree)) ∧
    (parseFormats regThree "all" = .ok (registryList regThree) ∧
      (registryList regThree).Sorted (fun a b => strLeB a b = true) ∧
      ∀ n, (registryList regThree).count n = if n ∈ regThree then 1 else 0) ∧
    parseFormats regThree "   " = .ok (registryList regThree) ∧
    parseFormats regThree " , " = .error "no valid formats specified" :=
  ⟨parseFormats_resolution.1 regThree "vctm, bogus" (by decide) (by decide)
     ⟨" bogus", by decide, by decide, by decide⟩,
   parseFormats_resolution.2.1 regThree (by decide),
   parseFormats_resolution.2.2.1 regThree "   " (by decide),
   parseFormats_resolution.2.2.2 regThree " , " (by decide) (by decide) (by decide)⟩

/-- C1 counterexample: an input that is empty after trimming does not
fail; it resolves to the full sorted registered list, exactly like
`"all"`. -/
theorem parseFormats_empty_input_counterexample :
    goTrimSpace "   " = "" ∧
    parseFormats ["w3c", "mddl", "vctm"] "   " = .ok ["mddl", "vctm", "w3c"] :=
  ⟨rfl, rfl⟩

/-! ### The mddl doctype derivation -/

/-- C3: with no explicit doctype and no per-format doctype override, when
a base URL and an id are present, the mobile-document doctype is derived
by stripping the URL scheme, splitting on `.`, reversing the segments and
appending `.credentials.<id>`; in particular the base URL
`https://registry.siros.org` with id `pid` yields
`org.siros.registry.credentials.pid`. -/
theorem mddl_doctype_reverse_domain :
    (∀ (parsed : ParsedCredential) (cfg : Config),
      parsed.docType = "" →
      overrideString parsed "mddl" "doctype" = "" →
      cfg.baseURL ≠ "" → parsed.id ≠ "" →
      mddlDeriveIdentifier parsed cfg =
        specReverseDomainDoctype cfg.baseURL parsed.id) ∧
    mddlDeriveIdentifier credSiros cfgSiros = "org.siros.registry.credentials.pid" := by
  constructor
  · intro parsed cfg h1 h2 h3 h4
    simp [mddlDeriveIdentifier, specReverseDomainDoctype, h1, h2, h3, h4]
  · rfl

/-- Witness for C3: the derivation applied to the spec's example inputs. -/
theorem mddl_doctype_reverse_domain_witness :
    mddlDeriveIdentifier credSiros cfgSiros =
      specReverseDomainDoctype "https://registry.siros.org" "pid" :=
  mddl_doctype_reverse_domain.1 credSiros cfgSiros rfl rfl
    (by decide) (by decide)

/-! ### Multi-format generation failure semantics -/

/-- C4 (amended): when one requested format's generation fails (all
earlier requested, registered formats having succeeded), `Parser.Generate`
returns that error as the result of the whole call; no format output at
all is returned — the outputs already generated for other formats in the
same batch are discarded rather than returned. -/
theorem parserGenerate_first_error (registry : List (String × GenFn))
    (cred : ParsedCredential) (cfg : Config) (pre post : List String)
    (name : String) (g : GenFn) (e : String)
    (hpre : ∀ n ∈ pre, ∀ g', List.lookup n registry = some g' →
      ∃ o, g' cred cfg = .ok o)
    (hname : List.lookup name registry = some g)
    (herr : g cred cfg = .error e) :
    parserGenerate registry cred cfg (pre ++ name :: post) = .error e := by
  have aux : ∀ (pre : List String) (acc : List (String × GenOutput)),
      (∀ n ∈ pre, ∀ g', List.lookup n registry = some g' →
        ∃ o, g' cred cfg = .ok o) →
      parserGenerateAux registry cred cfg (pre ++ name :: post) acc = .error e := by
    intro pre
    induction pre with
    | nil =>
      intro acc _
      simp only [List.nil_append, parserGenerateAux, hname, herr]
    | cons p ps ih =>
      intro acc hp
      cases hl : List.lookup p registry with
      | none =>
        simp only [List.cons_append, parserGenerateAux, hl]
        exact ih acc (fun n hn => hp n (List.mem_cons_of_mem p hn))
      | some g' =>
        obtain ⟨o, ho⟩ := hp p (List.mem_cons_self p ps) g' hl
        simp only [List.cons_append, parserGenerateAux, hl, ho]
        exact ih _ (fun n hn => hp n (List.mem_cons_of_mem p hn))
  exact aux pre [] hpre

/-- Witness for C4: requesting `w3c` then `mddl` on a credential with no
doctype source makes the whole call return the mddl error. -/
theorem parserGenerate_first_error_witness :
    parserGenerate registryTwo emptyCredential cfgNoBase
      (["w3c"] ++ "mddl" :: []) = .error mddlDoctypeError :=
  parserGenerate_first_error registryTwo emptyCredential cfgNoBase
    ["w3c"] [] "mddl" mddlGen mddlDoctypeError
    (by
      intro n hn g' hg'
      have hn' : n = "w3c" := by simpa using hn
      subst hn'
      have hg : g' = w3cGen := by
        have h2 : some w3cGen = some g' := by rw [← hg']; rfl
        exact (Option.some.inj h2).symm
      subst hg
      exact ⟨.w3c w3cEmptyDoc, rfl⟩)
    rfl rfl

/-- C4 counterexample: one failing format aborts the whole batch call —
even though the w3c generator succeeds on its own for the same
credential, the two-format request returns only the mddl error and no
w3c output is returned. -/
theorem parserGenerate_no_partial_output_counterexample :
    parserGenerate registryTwo emptyCredential cfgNoBase ["w3c", "mddl"] =
      .error mddlDoctypeError ∧
    w3cGenerate emptyCredential cfgNoBase = .ok w3cEmptyDoc :=
  ⟨rfl, rfl⟩

/-! ### The claim-line grammar on concrete inputs -/

/-- C5: the line `` `x` (string): d [mandatory] `` parses to a claim
named `x` of type `string`, mandatory, with description exactly `d`
(the bracketed flag group stripped); a line that does not match the
claim grammar parses to `none`, and such a list item registers no
claim. -/
theorem parseClaim_examples :
    parseClaimFromListItem "`x` (string): d [mandatory]" =
      some { name := "x", type := "string", description := "d",
             mandatory := true, sd := "", svgId := "", displayName := "",
             localizations := [] } ∧
    parseClaimFromListItem "not a claim" = none ∧
    parseClaimsList [⟨"not a claim", []⟩] [] = [] :=
  ⟨by decide, by decide, by decide⟩

/-! ### Front-matter leniency -/

/-- C7: front-matter extraction never reports an error (its result type
has no error case, mirroring the Go signature): content that does not
begin with a `---` fence, or whose closing fence is missing, or whose
delimited block fails YAML decoding, yields empty metadata and an empty
locale map. -/
theorem extractFrontMatter_lenient :
    (∀ (decD : String → Option (List (String × DisplayLocalization)))
       (decM : String → Option (List (String × OValue))) (content : String),
      strStartsWith content "---" = false →
      extractFrontMatter decD decM content = ([], [])) ∧
    (∀ (decD : String → Option (List (String × DisplayLocalization)))
       (decM : String → Option (List (String × OValue))) (content : String),
      findSubIdx (content.data.drop 3) ['-', '-', '-'] = none →
      extractFrontMatter decD decM content = ([], [])) ∧
    (∀ (decD : String → Option (List (String × DisplayLocalization)))
       (decM : String → Option (List (String × OValue)))
       (content : String) (i : Nat),
      findSubIdx (content.data.drop 3) ['-', '-', '-'] = some i →
      decD (String.mk ((content.data.drop 3).take i)) = none →
      decM (String.mk ((content.data.drop 3).take i)) = none →
      extractFrontMatter decD decM content = ([], [])) := by
  refine ⟨?_, ?_, ?_⟩
  · intro decD decM content h
    simp [extractFrontMatter, h]
  · intro decD decM content h
    unfold extractFrontMatter
    by_cases hs : strStartsWith content "---" = true <;> simp [hs, h]
  · intro decD decM content i hidx hD hM
    unfold extractFrontMatter
    by_cases hs : strStartsWith content "---" = true <;> simp [hs, hidx, hD, hM]

/-- Witness for C7: the three lenient cases at concrete contents and
always-failing decoders. -/
theorem extractFrontMatter_lenient_witness :
    extractFrontMatter (fun _ => none) (fun _ => none) "# heading only" = ([], []) ∧
    extractFrontMatter (fun _ => none) (fun _ => none) "---unclosed" = ([], []) ∧
    extractFrontMatter (fun _ => none) (fun _ => none) "---a---" = ([], []) :=
  ⟨extractFrontMatter_lenient.1 (fun _ => none) (fun _ => none) "# heading only"
     (by decide),
   extractFrontMatter_lenient.2.1 (fun _ => none) (fun _ => none) "---unclosed"
     (by decide),
   extractFrontMatter_lenient.2.2 (fun _ => none) (fun _ => none) "---a---" 1
     (by decide) rfl rfl⟩

/-! ### Credential display entries (`Parser.ToVCTM`) -/

/-- When the default locale does not occur in the locale map, no entry is
skipped. -/
theorem length_filterMap_displayLocEntry_not_mem (lang : String)
    (locs : List (String × DisplayLocalization))
    (h : lang ∉ locs.map Prod.fst) :
    (locs.filterMap (displayLocEntry lang)).length = locs.length := by
  induction locs with
  | nil => rfl
  | cons a rest ih =>
    obtain ⟨l, loc⟩ := a
    simp only [List.map_cons, List.mem_cons] at h
    push_neg at h
    have hl : l ≠ lang := fun hh => h.1 hh.symm
    simp [List.filterMap_cons, displayLocEntry, hl, ih h.2]

/-- When the default locale occurs (once, keys being unique) in the
locale map, exactly one entry is skipped. -/
theorem length_filterMap_displayLocEntry_mem (lang : String)
    (locs : List (String × DisplayLocalization))
    (hnd : (locs.map Prod.fst).Nodup) (h : lang ∈ locs.map Prod.fst) :
    (locs.filterMap (displayLocEntry lang)).length + 1 = locs.length := by
  induction locs with
  | nil => simp at h
  | cons a rest ih =>
    obtain ⟨l, loc⟩ := a
    simp only [List.map_cons, List.nodup_cons] at hnd
    by_cases hl : l = lang
    · subst hl
      simp [List.filterMap_cons, displayLocEntry,
        length_filterMap_displayLocEntry_not_mem l rest hnd.1]
    · have hmem : lang ∈ rest.map Prod.fst := by
        rw [List.map_cons] at h
        rcases List.mem_cons.mp h with hh | hh
        · exact absurd hh.symm hl
        · exact hh
      have hrec := ih hnd.2 hmem
      simp only [List.filterMap_cons, displayLocEntry, if_neg hl,
        List.length_cons, List.length_cons]
      omega

/-- C8 (amended): for a document with a title or description and a
front-matter display block with unique locale keys, the default locale's
entry is first, no other entry carries the default locale, and the entry
count is N+1 when the default locale is not among the N block locales and
N when it is (the default entry is never duplicated). -/
theorem toVCTMDisplay_entries (cfg : Config) (title desc : String)
    (locs : List (String × DisplayLocalization))
    (h : title ≠ "" ∨ desc ≠ "")
    (hnd : (locs.map Prod.fst).Nodup) :
    (toVCTMDisplay cfg title desc locs).head? =
      some ⟨cfg.language, title, desc⟩ ∧
    (∀ d ∈ (toVCTMDisplay cfg title desc locs).tail,
      d.locale ≠ cfg.language) ∧
    (cfg.language ∉ locs.map Prod.fst →
      (toVCTMDisplay cfg title desc locs).length = locs.length + 1) ∧
    (cfg.language ∈ locs.map Prod.fst →
      (toVCTMDisplay cfg title desc locs).length = locs.length) := by
  have hdef : toVCTMDisplay cfg title desc locs =
      ⟨cfg.language, title, desc⟩ ::
        locs.filterMap (displayLocEntry cfg.language) := by
    unfold toVCTMDisplay
    rw [if_pos h]
  refine ⟨by rw [hdef]; rfl, ?_, ?_, ?_⟩
  · rw [hdef]
    intro d hd
    simp only [List.tail_cons] at hd
    obtain ⟨⟨l, loc⟩, _, hf⟩ := List.mem_filterMap.mp hd
    by_cases hl : l = cfg.language
    · simp [displayLocEntry, hl] at hf
    · rw [displayLocEntry, if_neg hl] at hf
      cases hf
      exact hl
  · intro hmem
    rw [hdef]
    simp [length_filterMap_displayLocEntry_not_mem cfg.language locs hmem]
  · intro hmem
    rw [hdef]
    have := length_filterMap_displayLocEntry_mem cfg.language locs hnd hmem
    simp only [List.length_cons]
    omega

/-- Witness for C8: a titled document with a two-locale block containing
the default locale concretely yields two entries, default first. -/
theorem toVCTMDisplay_entries_witness :
    (toVCTMDisplay ⟨"en-US", ""⟩ "T" "D"
        [("sv-SE", ⟨"A", "B"⟩), ("en-US", ⟨"C", "E"⟩)]).head? =
      some ⟨"en-US", "T", "D"⟩ ∧
    (∀ d ∈ (toVCTMDisplay ⟨"en-US", ""⟩ "T" "D"
        [("sv-SE", ⟨"A", "B"⟩), ("en-US", ⟨"C", "E"⟩)]).tail,
      d.locale ≠ "en-US") ∧
    ("en-US" ∉ (([("sv-SE", ⟨"A", "B"⟩), ("en-US", ⟨"C", "E"⟩)] :
        List (String × DisplayLocalization)).map Prod.fst) →
      (toVCTMDisplay ⟨"en-US", ""⟩ "T" "D"
        [("sv-SE", ⟨"A", "B"⟩), ("en-US", ⟨"C", "E"⟩)]).length = 3) ∧
    ("en-US" ∈ (([("sv-SE", ⟨"A", "B"⟩), ("en-US", ⟨"C", "E"⟩)] :
        List (String × DisplayLocalization)).map Prod.fst) →
      (toVCTMDisplay ⟨"en-US", ""⟩ "T" "D"
        [("sv-SE", ⟨"A", "B"⟩), ("en-US", ⟨"C", "E"⟩)]).length = 2) :=
  toVCTMDisplay_entries ⟨"en-US", ""⟩ "T" "D"
    [("sv-SE", ⟨"A", "B"⟩), ("en-US", ⟨"C", "E"⟩)]
    (Or.inl (by decide)) (by decide)

/-- C8 counterexample: with the default locale inside a one-locale block
(N = 1), a titled document yields exactly one display entry, not N+1 = 2:
the duplicate suppression makes the N+1 count impossible in this case. -/
theorem toVCTMDisplay_count_counterexample :
    (toVCTMDisplay ⟨"en-US", ""⟩ "Title" "Desc"
      [("en-US", ⟨"T2", "D2"⟩)]).length = 1 ∧ (1 : Nat) ≠ 1 + 1 :=
  ⟨rfl, by decide⟩

/-! ### W3C type derivation -/

/-- `List.contains` from non-membership. -/
theorem contains_false_of_not_mem {a : String} {l : List String}
    (h : a ∉ l) : l.contains a = false := by
  rw [Bool.eq_false_iff]
  intro hc
  exact h (List.elem_iff.mp hc)

/-- `List.contains` from membership. -/
theorem contains_true_of_mem {a : String} {l : List String}
    (h : a ∈ l) : l.contains a = true :=
  List.elem_iff.mpr h

/-- C9 (amended): the derived type array is `VerifiableCredential`
prepended to the explicit type list when that list does not already
contain it; an explicit list that contains `VerifiableCredential`
anywhere is returned unchanged (so `VerifiableCredential` need not be
first); the per-format `type` override list is treated the same way:
prepended with `VerifiableCredential` when it lacks it and returned
unchanged when it contains it anywhere; with no explicit or overridden
list the result is `VerifiableCredential` followed by the credential
name stripped of spaces and hyphens (or `strings.Title` of the id when
the name is empty); and name `Person Identification Data` yields
`["VerifiableCredential", "PersonIdentificationData"]`. -/
theorem w3c_type_derivation :
    (∀ (parsed : ParsedCredential) (cfg : Config),
      parsed.w3cTypes ≠ [] →
      "VerifiableCredential" ∉ parsed.w3cTypes →
      w3cDeriveTypes parsed cfg = "VerifiableCredential" :: parsed.w3cTypes) ∧
    (∀ (parsed : ParsedCredential) (cfg : Config),
      "VerifiableCredential" ∈ parsed.w3cTypes →
      w3cDeriveTypes parsed cfg = parsed.w3cTypes) ∧
    (∀ (parsed : ParsedCredential) (cfg : Config),
      parsed.w3cTypes = [] → w3cOverrideTypeList parsed ≠ [] →
      "VerifiableCredential" ∉ w3cOverrideTypeList parsed →
      w3cDeriveTypes parsed cfg =
        "VerifiableCredential" :: w3cOverrideTypeList parsed) ∧
    (∀ (parsed : ParsedCredential) (cfg : Config),
      parsed.w3cTypes = [] →
      "VerifiableCredential" ∈ w3cOverrideTypeList parsed →
      w3cDeriveTypes parsed cfg = w3cOverrideTypeList parsed) ∧
    (∀ (parsed : ParsedCredential) (cfg : Config),
      parsed.w3cTypes = [] → w3cOverrideTypeList parsed = [] →
      parsed.name ≠ "" →
      w3cDeriveTypes parsed cfg =
        ["VerifiableCredential", removeSpacesHyphens parsed.name]) ∧
    (∀ (parsed : ParsedCredential) (cfg : Config),
      parsed.w3cTypes = [] → w3cOverrideTypeList parsed = [] →
      parsed.name = "" → parsed.id ≠ "" →
      w3cDeriveTypes parsed cfg = ["VerifiableCredential", goTitle parsed.id]) ∧
    w3cDeriveTypes credPID cfgNoBase =
      ["VerifiableCredential", "PersonIdentificationData"] := by
  refine ⟨?_, ?_, ?_, ?_, ?_, ?_, rfl⟩
  · intro parsed cfg h1 h2
    have hne : parsed.w3cTypes.isEmpty = false := by
      cases hT : parsed.w3cTypes with
      | nil => exact absurd hT h1
      | cons t ts => rfl
    simp [w3cDeriveTypes, hne, contains_false_of_not_mem h2, h2]
  · intro parsed cfg h
    have hne : parsed.w3cTypes.isEmpty = false := by
      cases hT : parsed.w3cTypes with
      | nil => rw [hT] at h; simp at h
      | cons t ts => rfl
    simp [w3cDeriveTypes, hne, contains_true_of_mem h, h]
  · intro parsed cfg h1 h2 h3
    have hne : (w3cOverrideTypeList parsed).isEmpty = false := by
      cases hT : w3cOverrideTypeList parsed with
      | nil => exact absurd hT h2
      | cons t ts => rfl
    simp [w3cDeriveTypes, h1, hne, contains_false_of_not_mem h3, h3]
  · intro parsed cfg h1 h2
    have hne : (w3cOverrideTypeList parsed).isEmpty = false := by
      cases hT : w3cOverrideTypeList parsed with
      | nil => rw [hT] at h2; simp at h2
      | cons t ts => rfl
    simp [w3cDeriveTypes, h1, hne, contains_true_of_mem h2, h2]
  · intro parsed cfg h1 h2 h3
    simp [w3cDeriveTypes, h1, h2, h3]
  · intro parsed cfg h1 h2 h3 h4
    simp [w3cDeriveTypes, h1, h2, h3, h4]

/-- Witness for C9: each hypothesis-bearing conjunct applied at a
concrete credential, the override conjuncts included. -/
theorem w3c_type_derivation_witness :
    w3cDeriveTypes { emptyCredential with w3cTypes := ["FooCredential"] }
      cfgNoBase = "VerifiableCredential" :: ["FooCredential"] ∧
    w3cDeriveTypes credVCSecond cfgNoBase =
      ["PersonCredential", "VerifiableCredential"] ∧
    w3cDeriveTypes credOverride cfgNoBase =
      "VerifiableCredential" :: w3cOverrideTypeList credOverride ∧
    w3cDeriveTypes credOverrideVC cfgNoBase =
      w3cOverrideTypeList credOverrideVC ∧
    w3cDeriveTypes credPID cfgNoBase =
      ["VerifiableCredential", removeSpacesHyphens "Person Identification Data"] ∧
    w3cDeriveTypes { emptyCredential with id := "pid" } cfgNoBase =
      ["VerifiableCredential", goTitle "pid"] :=
  ⟨w3c_type_derivation.1 { emptyCredential with w3cTypes := ["FooCredential"] }
     cfgNoBase (by decide) (by decide),
   w3c_type_derivation.2.1 credVCSecond cfgNoBase (by decide),
   w3c_type_derivation.2.2.1 credOverride cfgNoBase rfl (by decide) (by decide),
   w3c_type_derivation.2.2.2.1 credOverrideVC cfgNoBase rfl (by decide),
   w3c_type_derivation.2.2.2.2.1 credPID cfgNoBase rfl rfl (by decide),
   w3c_type_derivation.2.2.2.2.2.1 { emptyCredential with id := "pid" }
     cfgNoBase rfl rfl rfl (by decide)⟩

/-- C9 counterexample: an explicit type list carrying
`VerifiableCredential` in second position is returned unchanged, so the
derived array's first element is not `VerifiableCredential`. -/
theorem w3c_vc_not_first_counterexample :
    w3cDeriveTypes credVCSecond cfgNoBase =
      ["PersonCredential", "VerifiableCredential"] ∧
    (w3cDeriveTypes credVCSecond cfgNoBase).head? ≠
      some "VerifiableCredential" :=
  ⟨rfl, by decide⟩

/-! ### The SD-JWT-VC claims array shapes -/

/-- C2: on a mandatory, localized claim the vctmfmt generator's claims
entry carries only `path` and `display` keys — no `mandatory` key at all
and no `locale`-keyed display entries (its single display object is
keyed `lang`/`label` and the `de-DE` localization is dropped) — while
the draft-12 `Parser.ToVCTM` projection of the same claim does emit the
claimed shape: a `path` array, `mandatory`, `sd`, `svg_id`, and a
display list of `{locale, label, description}` entries with the default
locale first followed by the localization. -/
theorem vctmfmt_claims_shape :
    vctmfmtClaims [claimGivenName] =
      [[("path", JVal.arr [.str "given_name"]),
        ("display", JVal.arr
          [.obj [("lang", .str "en"), ("label", .str "Given Name")]])]] ∧
    (vctmfmtClaimEntry claimGivenName).map Prod.fst = ["path", "display"] ∧
    "mandatory" ∉ (vctmfmtClaimEntry claimGivenName).map Prod.fst ∧
    toVCTMClaims ⟨"en-US", ""⟩ [("given_name", claimDefGivenName)] =
      [{ path := ["given_name"],
         display := [⟨"en-US", "Given Name", ""⟩,
                     ⟨"de-DE", "Vorname", "Der Vorname"⟩],
         mandatory := true, sd := "", svgId := "" }] :=
  ⟨rfl, rfl, by decide, rfl⟩

/-! ### Flag handling of the claim grammar -/

/-- A string starts with itself prefixed. -/
theorem strStartsWith_append (p v : String) : strStartsWith (p ++ v) p = true := by
  unfold strStartsWith
  rw [String.data_append]
  exact List.isPrefixOf_iff_prefix.mpr (List.prefix_append _ _)

/-- Dropping a concatenated prefix recovers the remainder. -/
theorem strDropN_append (p v : String) : strDropN (p ++ v) p.data.length = v := by
  unfold strDropN
  rw [String.data_append, List.drop_left]

/-- Lowercasing distributes over the already-lowercase `svg_id=` prefix. -/
theorem lowerStr_svgid (v : String) :
    lowerStr ("svg_id=" ++ v) = "svg_id=" ++ lowerStr v := by
  apply String.toList_inj.mp
  show ("svg_id=" ++ v).data.map Char.toLower = ("svg_id=" ++ lowerStr v).data
  rw [String.data_append, List.map_append, String.data_append]
  exact congrArg (· ++ v.data.map Char.toLower) (by decide)

/-- A string starting with `svg_id=` does not start with `sd=`. -/
theorem not_sd_prefix_of_svgid (w : String) :
    strStartsWith ("svg_id=" ++ w) "sd=" = false := by
  unfold strStartsWith
  rw [String.data_append]
  rfl

/-- A string starting with `sd=` is not the token `mandatory`. -/
theorem ne_mandatory_of_sd (v : String) : ("sd=" ++ v) ≠ "mandatory" := by
  intro he
  have h := strStartsWith_append "sd=" v
  rw [he] at h
  exact absurd h (by decide)

/-- A string starting with `svg_id=` is not the token `mandatory`. -/
theorem ne_mandatory_of_svgid (v : String) : ("svg_id=" ++ v) ≠ "mandatory" := by
  intro he
  have h := strStartsWith_append "svg_id=" v
  rw [he] at h
  exact absurd h (by decide)

/-- A flag whose trimmed, lowercased text is `mandatory` sets the flag. -/
theorem applyFlag_mandatory (cl : ClaimDef) (f : String)
    (h : lowerStr (goTrimSpace f) = "mandatory") :
    (applyFlag cl f).mandatory = true := by
  unfold applyFlag
  dsimp only
  rw [h]
  simp

/-- A flag whose trimmed, lowercased text is `sd=<v>` stores `<v>` (the
value as lowercased). -/
theorem applyFlag_sd (cl : ClaimDef) (f v : String)
    (h : lowerStr (goTrimSpace f) = "sd=" ++ v) :
    (applyFlag cl f).sd = v := by
  unfold applyFlag
  dsimp only
  rw [h, if_neg (ne_mandatory_of_sd v), if_pos (strStartsWith_append "sd=" v)]
  show strDropN ("sd=" ++ v) 3 = v
  exact strDropN_append "sd=" v

/-- A flag whose trimmed text is literally `svg_id=<v>` (lowercase
prefix) stores `<v>` with its case preserved. -/
theorem applyFlag_svgid_lower (cl : ClaimDef) (f v : String)
    (h : goTrimSpace f = "svg_id=" ++ v) :
    (applyFlag cl f).svgId = v := by
  unfold applyFlag
  dsimp only
  rw [h, lowerStr_svgid]
  rw [if_neg (ne_mandatory_of_svgid (lowerStr v))]
  rw [if_neg (by rw [not_sd_prefix_of_svgid (lowerStr v)]; exact Bool.false_ne_true)]
  rw [if_pos (strStartsWith_append "svg_id=" (lowerStr v))]
  show goTrimPrefix ("svg_id=" ++ v) "svg_id=" = v
  unfold goTrimPrefix
  rw [if_pos (strStartsWith_append "svg_id=" v)]
  exact strDropN_append "svg_id=" v

/-- A flag matching `svg_id=` only after lowercasing stores the whole
trimmed flag text, prefix included (`strings.TrimPrefix` on the
original-case text strips nothing). -/
theorem applyFlag_svgid_other_case (cl : ClaimDef) (f : String)
    (h1 : strStartsWith (lowerStr (goTrimSpace f)) "svg_id=" = true)
    (h2 : strStartsWith (goTrimSpace f) "svg_id=" = false) :
    (applyFlag cl f).svgId = goTrimSpace f := by
  unfold applyFlag
  dsimp only
  rw [if_neg (fun he => by rw [he] at h1; exact absurd h1 (by decide))]
  obtain ⟨t, ht⟩ := List.isPrefixOf_iff_prefix.mp h1
  have hsd : strStartsWith (lowerStr (goTrimSpace f)) "sd=" = false := by
    unfold strStartsWith
    rw [← ht]
    rfl
  rw [if_neg (by rw [hsd]; exact Bool.false_ne_true)]
  rw [if_pos h1]
  unfold goTrimPrefix
  rw [h2]
  simp

/-- C6 (amended): within bracketed flag groups, `mandatory` and
`sd=<value>` are recognized case-insensitively (the stored sd value is
the lowercased text); an `svg_id=<value>` flag is also matched
case-insensitively, but the stored SVG anchor id is the value with its
original case preserved only when the `svg_id=` prefix itself is written
in lowercase — a flag whose prefix is written in any other case stores
the entire flag text, prefix included. -/
theorem claim_flag_case_handling :
    (∀ (cl : ClaimDef) (f : String),
      lowerStr (goTrimSpace f) = "mandatory" →
      (applyFlag cl f).mandatory = true) ∧
    (∀ (cl : ClaimDef) (f v : String),
      lowerStr (goTrimSpace f) = "sd=" ++ v → (applyFlag cl f).sd = v) ∧
    (∀ (cl : ClaimDef) (f v : String),
      goTrimSpace f = "svg_id=" ++ v → (applyFlag cl f).svgId = v) ∧
    (∀ (cl : ClaimDef) (f : String),
      strStartsWith (lowerStr (goTrimSpace f)) "svg_id=" = true →
      strStartsWith (goTrimSpace f) "svg_id=" = false →
      (applyFlag cl f).svgId = goTrimSpace f) :=
  ⟨applyFlag_mandatory, applyFlag_sd, applyFlag_svgid_lower,
   applyFlag_svgid_other_case⟩

/-- Witness for C6: the four flag behaviours at concrete flags. -/
theorem claim_flag_case_handling_witness :
    (applyFlag emptyClaim " MANDATORY ").mandatory = true ∧
    (applyFlag emptyClaim "SD=Always").sd = "always" ∧
    (applyFlag emptyClaim "svg_id=CasePreserved").svgId = "CasePreserved" ∧
    (applyFlag emptyClaim "SVG_ID=Foo").svgId = goTrimSpace "SVG_ID=Foo" :=
  ⟨claim_flag_case_handling.1 emptyClaim " MANDATORY " (by decide),
   claim_flag_case_handling.2.1 emptyClaim "SD=Always" "always" (by decide),
   claim_flag_case_handling.2.2.1 emptyClaim "svg_id=CasePreserved"
     "CasePreserved" (by decide),
   claim_flag_case_handling.2.2.2 emptyClaim "SVG_ID=Foo"
     (by decide) (by decide)⟩

/-- C6 counterexample: an uppercase `SVG_ID=Foo` flag is matched, but
the stored SVG anchor id is the whole flag text `SVG_ID=Foo`, not the
value `Foo` with its case preserved. -/
theorem svg_id_prefix_case_counterexample :
    parseClaimFromListItem "`x` (string): d [SVG_ID=Foo]" =
      some { name := "x", type := "string", description := "d",
             mandatory := false, sd := "", svgId := "SVG_ID=Foo",
             displayName := "", localizations := [] } ∧
    "SVG_ID=Foo" ≠ "Foo" :=
  ⟨by decide, by decide⟩

end Mtcvctm
